import Mathlib

/-!
Shallow embedding of `skills/interview-to-spec/scripts/spec-validator.py`.

The validator is a line-free, single-pass text scanner built from a handful
of Python regular expressions.  Each regex is embedded here as an executable
matcher over `List Char`, faithful to Python `re` semantics for the concrete
pattern at hand (`re.search` as an existential over start positions with
backtracking, `re.findall` as a left-to-right non-overlapping scan that
advances one character on failure).  Character classes are modelled on the
ASCII range, which covers every character the validator's patterns and the
documents in this development use.
-/

namespace SpecValidator

/-- Python regex class \s restricted to ASCII: space, tab, newline,
carriage return, vertical tab, form feed. -/
def pyIsSpace (c : Char) : Bool :=
  c = ' ' || c = '\t' || c = '\n' || c = '\r' || c = '\x0b' || c = '\x0c'

/-- Python regex class \d restricted to ASCII: the ten decimal digits. -/
def pyIsDigit (c : Char) : Bool :=
  c.isDigit

/-- Python regex class \w restricted to ASCII: letters, digits, underscore. -/
def pyIsWord (c : Char) : Bool :=
  c.isAlphanum || c = '_'

/-- Case folding used by re.IGNORECASE on the ASCII range. -/
def lowerChar (c : Char) : Char :=
  c.toLower

/-- Case-insensitive literal match of `pat` at the head of `cs`
(the IGNORECASE comparison of a literal regex fragment). -/
def startsWithCI : List Char → List Char → Bool
  | [], _ => true
  | _ :: _, [] => false
  | p :: ps, c :: cs => (lowerChar p = lowerChar c) && startsWithCI ps cs

/-- Kleene star with full backtracking: succeeds when some split of the
input into a block of characters satisfying `p` followed by a remainder
accepted by the continuation `k` exists. -/
def matchStar (p : Char → Bool) (k : List Char → Bool) : List Char → Bool
  | [] => k []
  | c :: cs => k (c :: cs) || (p c && matchStar p k cs)

/-- Optional literal dot, regex fragment `\.?`, with backtracking. -/
def matchOptDot (k : List Char → Bool) (cs : List Char) : Bool :=
  k cs ||
    (match cs with
     | '.' :: rest => k rest
     | _ => false)

/-- Tail `\d*\.?\s*NAME` of the section-heading regex of
`validate_sections`, matched at the head of the input. -/
def matchSecTail (name : List Char) (cs : List Char) : Bool :=
  matchStar pyIsDigit
    (fun cs1 => matchOptDot
      (fun cs2 => matchStar pyIsSpace (fun cs3 => startsWithCI name cs3) cs2) cs1) cs

/-- Full section-heading regex `##\s+\d*\.?\s*NAME` of `validate_sections`,
matched at the head of the input. -/
def matchSecAt (name : List Char) : List Char → Bool
  | a :: b :: c :: rest =>
      a = '#' && b = '#' && pyIsSpace c && matchStar pyIsSpace (matchSecTail name) rest
  | _ => false

/-- Existence of a match of `f` at some suffix of the input: the semantics
of `re.search` for a pattern with matcher `f`. -/
def searchAny (f : List Char → Bool) : List Char → Bool
  | [] => f []
  | c :: cs => f (c :: cs) || searchAny f cs

/-- One required section is present: `re.search` of the heading pattern
with IGNORECASE, from `validate_sections`. -/
def sectionPresent (content sec : String) : Bool :=
  searchAny (matchSecAt sec.data) content.data

/-- FULL_SPEC_SECTIONS constant of the validator. -/
def FULL_SPEC_SECTIONS : List String :=
  ["Overview", "User Stories", "Technical", "UI/UX",
   "Edge Cases", "Security", "Performance", "Implementation"]

/-- QUICK_SPEC_SECTIONS constant of the validator. -/
def QUICK_SPEC_SECTIONS : List String :=
  ["What", "Why", "How", "Acceptance Criteria"]

/-- validate_sections: iterate over the required names in order, appending
each to the found list or the missing list. -/
def validate_sections (content : String) (required : List String) :
    List String × List String :=
  required.foldl
    (fun acc sec =>
      if sectionPresent content sec then (acc.1 ++ [sec], acc.2)
      else (acc.1, acc.2 ++ [sec]))
    ([], [])

/-- Non-overlapping scan of `re.findall`, one character at a time: the skip
counter records how many characters of the current match are still to be
consumed; at skip zero the matcher is tried, a match of length n counts one
occurrence and skips its remaining n - 1 characters, a failure advances one
character. -/
def scanSkip (m : List Char → Option Nat) : Nat → List Char → Nat
  | _, [] => 0
  | s + 1, _ :: cs => scanSkip m s cs
  | 0, c :: cs =>
    match m (c :: cs) with
    | some n => 1 + scanSkip m (n - 1) cs
    | none => scanSkip m 0 cs

/-- Number of non-overlapping matches of `re.findall` for a matcher `m`. -/
def scanCount (m : List Char → Option Nat) (l : List Char) : Nat :=
  scanSkip m 0 l

/-- The five placeholder words of the pattern
`\[(TODO|TBD|PLACEHOLDER|XXX|FIXME)\]`. -/
def PLACEHOLDER_WORDS : List (List Char) :=
  ["TODO".data, "TBD".data, "PLACEHOLDER".data, "XXX".data, "FIXME".data]

/-- Try each placeholder alternative in order after the opening bracket;
a match also consumes the closing bracket. -/
def placeholderTry : List (List Char) → List Char → Option Nat
  | [], _ => none
  | w :: rest, cs =>
    if startsWithCI w cs && (cs.drop w.length).head? = some ']' then
      some (w.length + 1)
    else placeholderTry rest cs

/-- Matcher of `\[(TODO|TBD|PLACEHOLDER|XXX|FIXME)\]` with IGNORECASE at
the head of the input, returning the matched length. -/
def placeholderAt : List Char → Option Nat
  | '[' :: cs => (placeholderTry PLACEHOLDER_WORDS cs).map (· + 1)
  | _ => none

/-- Occurrence count of the unresolved_placeholders pattern. -/
def countPlaceholders (s : String) : Nat :=
  scanCount placeholderAt s.data

/-- Matcher of the empty_tables pattern `\|\s*\|\s*\|` at the head of the
input.  The whitespace runs between the pipes are forced, so the greedy
backtracking match is deterministic. -/
def pipeAt : List Char → Option Nat
  | '|' :: cs =>
    match cs.dropWhile pyIsSpace with
    | '|' :: cs2 =>
      (match cs2.dropWhile pyIsSpace with
       | '|' :: _ =>
         some ((cs.takeWhile pyIsSpace).length + (cs2.takeWhile pyIsSpace).length + 3)
       | _ => none)
    | _ => none
  | _ => none

/-- Occurrence count of the empty_tables pattern. -/
def countEmptyTables (s : String) : Nat :=
  scanCount pipeAt s.data

/-- Matcher of the missing_acceptance_criteria pattern `- \[ \] \[`,
a seven-character literal, at the head of the input. -/
def missingCriteriaAt (cs : List Char) : Option Nat :=
  if startsWithCI "- [ ] [".data cs then some 7 else none

/-- Occurrence count of the missing_acceptance_criteria pattern. -/
def countMissingCriteria (s : String) : Nat :=
  scanCount missingCriteriaAt s.data

/-- The six alternatives of the vague_language pattern
`\b(maybe|probably|might|could|should consider|etc\.)\b`. -/
def VAGUE_WORDS : List (List Char) :=
  ["maybe".data, "probably".data, "might".data, "could".data,
   "should consider".data, "etc.".data]

/-- Wordness of an optional character; absent characters (text edges)
count as non-word for \b. -/
def isWordOpt : Option Char → Bool
  | none => false
  | some c => pyIsWord c

/-- Word boundary \b between two adjacent positions of the text. -/
def boundaryB (a b : Option Char) : Bool :=
  isWordOpt a != isWordOpt b

/-- Try each vague-language alternative in order at the head of `cs`, with
`prev` the character just before the current position; both surrounding
word boundaries must hold. -/
def vagueTry : List (List Char) → Option Char → List Char → Option Nat
  | [], _, _ => none
  | w :: rest, prev, cs =>
    if startsWithCI w cs && boundaryB prev cs.head? &&
        boundaryB (cs.get? (w.length - 1)) (cs.get? w.length) then
      some w.length
    else vagueTry rest prev cs

/-- Non-overlapping findall scan that also tracks the character preceding
the current position so a leading word boundary can be evaluated; the skip
counter works as in scanSkip. -/
def scanSkipP (m : Option Char → List Char → Option Nat) :
    Nat → Option Char → List Char → Nat
  | _, _, [] => 0
  | s + 1, _, c :: cs => scanSkipP m s (some c) cs
  | 0, prev, c :: cs =>
    match m prev (c :: cs) with
    | some n => 1 + scanSkipP m (n - 1) (some c) cs
    | none => scanSkipP m 0 (some c) cs

/-- Occurrence count of the vague_language pattern. -/
def countVague (s : String) : Nat :=
  scanSkipP (vagueTry VAGUE_WORDS) 0 none s.data

/-- Matcher of a fenced code-block delimiter, the three-character literal
pattern of check_code_blocks, at the head of the input. -/
def tickAt (cs : List Char) : Option Nat :=
  if startsWithCI "```".data cs then some 3 else none

/-- Number of fence delimiters found by `re.findall` in check_code_blocks. -/
def countFences (s : String) : Nat :=
  scanCount tickAt s.data

/-- check_code_blocks: fence delimiter count divided by two, rounding down. -/
def check_code_blocks (s : String) : Nat :=
  countFences s / 2

/-- check_quality: evaluate the four QUALITY_PATTERNS in dictionary order
and keep only the names whose pattern matched at least once, paired with
the exact occurrence count. -/
def check_quality (content : String) : List (String × Nat) :=
  ([("unresolved_placeholders", countPlaceholders content),
    ("empty_tables", countEmptyTables content),
    ("missing_acceptance_criteria", countMissingCriteria content),
    ("vague_language", countVague content)]).filter (fun p => p.2 != 0)

/-- Python str.split on the newline character. -/
def splitNl : List Char → List (List Char)
  | [] => [[]]
  | c :: cs =>
    if c = '\n' then [] :: splitNl cs
    else
      match splitNl cs with
      | [] => [[c]]
      | l :: ls => (c :: l) :: ls

/-- line_count statistic: `len(content.split('\n'))`. -/
def line_count (s : String) : Nat :=
  (splitNl s.data).length

/-- Three-valued verdict printed by validate_spec. -/
inductive Verdict
  | failed
  | passedWithWarnings
  | passed
deriving DecidableEq

/-- has_critical_issues of validate_spec: a required section is missing or
the unresolved_placeholders key is present in the quality issues. -/
def has_critical_issues (content : String) (quick : Bool) : Bool :=
  let required := if quick then QUICK_SPEC_SECTIONS else FULL_SPEC_SECTIONS
  !(validate_sections content required).2.isEmpty ||
    ((check_quality content).lookup "unresolved_placeholders").isSome

/-- Verdict line printed by validate_spec. -/
def verdictOf (content : String) (quick : Bool) : Verdict :=
  if has_critical_issues content quick then Verdict.failed
  else if !(check_quality content).isEmpty then Verdict.passedWithWarnings
  else Verdict.passed

/-- Boolean returned by validate_spec once the file content is in hand:
false on critical issues, true otherwise (with or without warnings). -/
def validate_spec_content (content : String) (quick : Bool) : Bool :=
  if has_critical_issues content quick then false
  else if !(check_quality content).isEmpty then true
  else true

/-- Per-file behaviour of validate_spec including the existence check: the
file system is a partial map from path to content, a missing file yields
false without consulting the content checks. -/
def validate_file (fs : String → Option String) (quick : Bool)
    (filepath : String) : Bool :=
  match fs filepath with
  | none => false
  | some content => validate_spec_content content quick

/-- main: argparse rejects an empty file list with exit status 2;
otherwise all_passed is folded over every file in order and the exit
status is 0 when all passed, 1 otherwise. -/
def run_main (fs : String → Option String) (files : List String)
    (quick : Bool) : Nat :=
  if files.isEmpty then 2
  else
    let all_passed := files.foldl (fun acc f => acc && validate_file fs quick f) true
    if all_passed then 0 else 1

/-- Document whose eight required full-spec headings all use a single
hash marker. -/
def oneHashDoc : String :=
  "# Overview\n# User Stories\n# Technical\n# UI/UX\n# Edge Cases\n# Security\n# Performance\n# Implementation\n"

/-- Full-mode document containing six of the eight required headings and
missing exactly Security and Performance. -/
def docNoSecPerf : String :=
  "## Overview\n## User Stories\n## Technical\n## UI/UX\n## Edge Cases\n## Implementation\n"

/-- Full-mode document containing all eight required headings and no
quality-pattern matches. -/
def passDoc : String :=
  "## Overview\n## User Stories\n## Technical\n## UI/UX\n## Edge Cases\n## Security\n## Performance\n## Implementation\n"

/-- Full-mode document with all eight required headings and one vague
word, but no placeholder. -/
def warnDoc : String :=
  "## Overview\n## User Stories\n## Technical\n## UI/UX\n## Edge Cases\n## Security\n## Performance\n## Implementation\nThis maybe needs work.\n"

theorem startsWithCI_append (l r : List Char) : startsWithCI l (l ++ r) = true := by
  induction l with
  | nil => simp [startsWithCI]
  | cons c cs ih => simp [startsWithCI, ih]

theorem matchStar_of_k {p : Char → Bool} {k : List Char → Bool} {cs : List Char}
    (h : k cs = true) : matchStar p k cs = true := by
  cases cs <;> simp [matchStar, h]

theorem searchAny_of_suffix (f : List Char → Bool) (pre suf : List Char)
    (h : f suf = true) : searchAny f (pre ++ suf) = true := by
  induction pre with
  | nil =>
    cases suf with
    | nil => simpa [searchAny] using h
    | cons c cs => simp [searchAny, h]
  | cons c cs ih => simp [searchAny, ih]

theorem searchAny_eq_true_iff (f : List Char → Bool) (l : List Char) :
    searchAny f l = true ↔ ∃ pre suf, l = pre ++ suf ∧ f suf = true := by
  induction l with
  | nil =>
    simp only [searchAny]
    constructor
    · intro h
      exact ⟨[], [], rfl, h⟩
    · rintro ⟨pre, suf, he, hf⟩
      rcases List.append_eq_nil.mp he.symm with ⟨h1, h2⟩
      subst h2
      exact hf
  | cons c cs ih =>
    simp only [searchAny, Bool.or_eq_true]
    constructor
    · rintro (h | h)
      · exact ⟨[], c :: cs, rfl, h⟩
      · rcases ih.mp h with ⟨pre, suf, he, hf⟩
        exact ⟨c :: pre, suf, by simp [he], hf⟩
    · rintro ⟨pre, suf, he, hf⟩
      cases pre with
      | nil =>
        simp only [List.nil_append] at he
        exact Or.inl (he ▸ hf)
      | cons p ps =>
        simp only [List.cons_append, List.cons.injEq] at he
        exact Or.inr (ih.mpr ⟨ps, suf, he.2, hf⟩)

theorem matchSecAt_inv {name cs : List Char} (h : matchSecAt name cs = true) :
    ∃ c rest, cs = '#' :: '#' :: c :: rest ∧ pyIsSpace c = true := by
  match cs with
  | [] => simp [matchSecAt] at h
  | [a] => simp [matchSecAt] at h
  | [a, b] => simp [matchSecAt] at h
  | a :: b :: c :: rest =>
    simp only [matchSecAt, Bool.and_eq_true, decide_eq_true_eq] at h
    exact ⟨c, rest, by rw [h.1.1.1, h.1.1.2], h.1.2⟩

theorem validate_sections_foldl (content : String) (required : List String)
    (acc : List String × List String) :
    required.foldl
      (fun acc sec =>
        if sectionPresent content sec then (acc.1 ++ [sec], acc.2)
        else (acc.1, acc.2 ++ [sec])) acc
      = (acc.1 ++ required.filter (fun sec => sectionPresent content sec),
         acc.2 ++ required.filter (fun sec => !sectionPresent content sec)) := by
  induction required generalizing acc with
  | nil => simp
  | cons s t ih =>
    by_cases h : sectionPresent content s = true <;>
      simp [List.foldl_cons, List.filter_cons, h, ih]

theorem validate_sections_eq (content : String) (required : List String) :
    validate_sections content required
      = (required.filter (fun sec => sectionPresent content sec),
         required.filter (fun sec => !sectionPresent content sec)) := by
  unfold validate_sections
  simpa using validate_sections_foldl content required ([], [])

theorem splitNl_ne_nil (l : List Char) : splitNl l ≠ [] := by
  induction l with
  | nil => simp [splitNl]
  | cons c cs ih =>
    by_cases h : c = '\n'
    · simp [splitNl, h]
    · simp only [splitNl, if_neg h]
      rcases hs : splitNl cs with _ | ⟨a, b⟩ <;> simp

theorem splitNl_length (l : List Char) :
    (splitNl l).length = l.count '\n' + 1 := by
  induction l with
  | nil => simp [splitNl]
  | cons c cs ih =>
    by_cases h : c = '\n'
    · simp [splitNl, h, List.count_cons, ih]
    · simp only [splitNl, if_neg h]
      rcases hs : splitNl cs with _ | ⟨a, b⟩
      · exact absurd hs (splitNl_ne_nil cs)
      · rw [hs] at ih
        simp only [List.length_cons] at ih ⊢
        simp [List.count_cons, h, ih]

theorem foldl_and_eq (p : String → Bool) (l : List String) (b : Bool) :
    l.foldl (fun acc f => acc && p f) b = (b && l.all p) := by
  induction l generalizing b with
  | nil => simp
  | cons x t ih => simp [List.foldl_cons, List.all_cons, ih, Bool.and_assoc]

theorem scanCount_ne_zero_iff (m : List Char → Option Nat) (l : List Char)
    (hnil : m [] = none) :
    scanCount m l ≠ 0 ↔ ∃ pre suf, l = pre ++ suf ∧ m suf ≠ none := by
  unfold scanCount
  constructor
  · intro h
    induction l with
    | nil => simp [scanSkip] at h
    | cons c cs ih =>
      rcases hm : m (c :: cs) with _ | n
      · simp only [scanSkip, hm] at h
        rcases ih h with ⟨pre, suf, he, hf⟩
        exact ⟨c :: pre, suf, by simp [he], hf⟩
      · exact ⟨[], c :: cs, rfl, by simp [hm]⟩
  · rintro ⟨pre, suf, he, hf⟩
    subst he
    induction pre with
    | nil =>
      cases suf with
      | nil => exact absurd hnil hf
      | cons c cs =>
        rcases hm : m (c :: cs) with _ | n
        · exact absurd hm hf
        · simp [scanSkip, hm]
    | cons p ps ih =>
      rcases hm : m (p :: (ps ++ suf)) with _ | n
      · simpa [scanSkip, hm] using ih
      · simp [scanSkip, hm]

theorem dropWhile_append_of_all {p : Char → Bool} {w : List Char} {x : Char}
    {r : List Char} (hw : ∀ c ∈ w, p c = true) (hx : p x = false) :
    (w ++ x :: r).dropWhile p = x :: r := by
  induction w with
  | nil => simp [List.dropWhile_cons, hx]
  | cons a t ih =>
    have ha : p a = true := hw a (by simp)
    simp [List.dropWhile_cons, ha, ih (fun c hc => hw c (by simp [hc]))]

theorem pipeAt_ne_none_iff (cs : List Char) :
    pipeAt cs ≠ none ↔
      ∃ w1 w2 rest, cs = '|' :: (w1 ++ '|' :: (w2 ++ '|' :: rest))
        ∧ (∀ c ∈ w1, pyIsSpace c = true) ∧ (∀ c ∈ w2, pyIsSpace c = true) := by
  constructor
  · intro h
    match hcs : cs with
    | [] => simp [pipeAt] at h
    | a :: cs1 =>
      by_cases ha : a = '|'
      · subst ha
        rcases hd1 : cs1.dropWhile pyIsSpace with _ | ⟨b, cs2⟩
        · simp [pipeAt, hd1] at h
        · by_cases hb : b = '|'
          · subst hb
            rcases hd2 : cs2.dropWhile pyIsSpace with _ | ⟨d, rest⟩
            · simp [pipeAt, hd1, hd2] at h
            · by_cases hdp : d = '|'
              · subst hdp
                have e1 : cs1 = cs1.takeWhile pyIsSpace ++ ('|' :: cs2) := by
                  rw [← hd1, List.takeWhile_append_dropWhile]
                have e2 : cs2 = cs2.takeWhile pyIsSpace ++ ('|' :: rest) := by
                  rw [← hd2, List.takeWhile_append_dropWhile]
                refine ⟨cs1.takeWhile pyIsSpace, cs2.takeWhile pyIsSpace, rest, ?_, ?_, ?_⟩
                · conv_lhs => rw [e1, e2]
                · intro c hc
                  exact List.mem_takeWhile_imp hc
                · intro c hc
                  exact List.mem_takeWhile_imp hc
              · simp [pipeAt, hd1, hd2, hdp] at h
          · simp [pipeAt, hd1, hb] at h
      · simp [pipeAt, ha] at h
  · rintro ⟨w1, w2, rest, he, hw1, hw2⟩
    subst he
    have hp : pyIsSpace '|' = false := by decide
    have d1 : (w1 ++ '|' :: (w2 ++ '|' :: rest)).dropWhile pyIsSpace
        = '|' :: (w2 ++ '|' :: rest) := dropWhile_append_of_all hw1 hp
    have d2 : (w2 ++ '|' :: rest).dropWhile pyIsSpace = '|' :: rest :=
      dropWhile_append_of_all hw2 hp
    simp [pipeAt, d1, d2]

theorem check_quality_lookup (content : String) :
    ((check_quality content).lookup "unresolved_placeholders" =
      if countPlaceholders content = 0 then none else some (countPlaceholders content))
    ∧ ((check_quality content).lookup "empty_tables" =
      if countEmptyTables content = 0 then none else some (countEmptyTables content))
    ∧ ((check_quality content).lookup "missing_acceptance_criteria" =
      if countMissingCriteria content = 0 then none else some (countMissingCriteria content))
    ∧ ((check_quality content).lookup "vague_language" =
      if countVague content = 0 then none else some (countVague content)) := by
  unfold check_quality
  by_cases h1 : countPlaceholders content = 0 <;>
    by_cases h2 : countEmptyTables content = 0 <;>
      by_cases h3 : countMissingCriteria content = 0 <;>
        by_cases h4 : countVague content = 0 <;>
          simp [List.filter_cons, List.filter_nil, List.lookup, h1, h2, h3, h4]

/-- C1 counterexample: the claim says a heading marker of one or more hash
characters suffices, so the document whose eight required headings all use a
single hash would have no missing sections; the code's pattern needs two
hashes and reports every section missing. -/
theorem c1_section_match_counterexample :
    (validate_sections oneHashDoc FULL_SPEC_SECTIONS).2 = FULL_SPEC_SECTIONS := by
  decide

/-- C1 amended: a section is present iff the document matches two or more
hash characters, at least one whitespace character, an optional numeric
label of digits followed by at most one dot (so a label like 2.1 does not
match), optional whitespace, and then the section name case-insensitively;
a heading of the form the two-hash marker, a space and the name is always
found. -/
theorem c1_section_match_amended :
    (∀ pre name suf : String, sectionPresent (pre ++ "## " ++ name ++ suf) name = true)
    ∧ sectionPresent "## 1. Overview" "Overview" = true
    ∧ sectionPresent "## 2.1 Overview" "Overview" = false
    ∧ sectionPresent "# Overview" "Overview" = false := by
  refine ⟨?_, by decide, by decide, by decide⟩
  intro pre name suf
  unfold sectionPresent
  have hdata : (pre ++ "## " ++ name ++ suf).data
      = pre.data ++ ('#' :: '#' :: ' ' :: (name.data ++ suf.data)) := by
    have hlit : "## ".data = ['#', '#', ' '] := rfl
    simp [String.data_append, hlit, List.append_assoc]
  rw [hdata]
  apply searchAny_of_suffix
  have h3 : startsWithCI name.data (name.data ++ suf.data) = true :=
    startsWithCI_append _ _
  have h2 : matchStar pyIsSpace (fun cs3 => startsWithCI name.data cs3)
      (name.data ++ suf.data) = true := matchStar_of_k h3
  have h1 : matchOptDot
      (fun cs2 => matchStar pyIsSpace (fun cs3 => startsWithCI name.data cs3) cs2)
      (name.data ++ suf.data) = true := by
    unfold matchOptDot
    simp [h2]
  have h0 : matchSecTail name.data (name.data ++ suf.data) = true := by
    unfold matchSecTail
    exact matchStar_of_k h1
  have h4 : matchStar pyIsSpace (matchSecTail name.data) (name.data ++ suf.data) = true :=
    matchStar_of_k h0
  simp [matchSecAt, pyIsSpace, h4]

/-- C4 counterexample: the claim says every occurrence of the abbreviation
etc followed by its period in ordinary prose is counted as vague language;
the trailing word boundary of the pattern fails after the period unless a
word character follows, so this document reports no vague language at all. -/
theorem c4_vague_counterexample :
    countVague "Fruits are apples, pears, etc. and more." = 0
    ∧ (check_quality "Fruits are apples, pears, etc. and more.").lookup "vague_language"
        = none := by
  decide

/-- C4 amended: the vague-language count is the number of non-overlapping
case-insensitive whole-word matches of maybe, probably, might, could and
should consider, while the abbreviation etc with its period is counted only
when the period is immediately followed by a word character; followed by a
space, punctuation or the end of the text it is not counted. -/
theorem c4_vague_amended :
    countVague "maybe Maybe MAYBE" = 3
    ∧ countVague "We should consider it." = 1
    ∧ countVague "might could probably" = 3
    ∧ countVague "couldn and might2" = 0
    ∧ countVague "etc. etcetera" = 0
    ∧ countVague "etc.and so on" = 1 := by
  decide

/-- C5 counterexample: the claim says a row with two consecutive pipes
separated only by whitespace is flagged as an empty table; the pattern
needs three pipes, so this two-pipe document yields no empty_tables entry. -/
theorem c5_empty_tables_counterexample :
    (check_quality "| |\n").lookup "empty_tables" = none := by
  decide

/-- C5 amended: the empty_tables category has a match exactly when the
document contains three pipe characters with only whitespace (possibly
none, possibly spanning line breaks) between consecutive pipes; two pipes
alone are never flagged. -/
theorem c5_empty_tables_amended (s : String) :
    (check_quality s).lookup "empty_tables" ≠ none ↔
      ∃ pre w1 w2 rest, s.data = pre ++ ('|' :: (w1 ++ '|' :: (w2 ++ '|' :: rest)))
        ∧ (∀ c ∈ w1, pyIsSpace c = true) ∧ (∀ c ∈ w2, pyIsSpace c = true) := by
  have hlk := (check_quality_lookup s).2.1
  have h1 : (check_quality s).lookup "empty_tables" ≠ none ↔ countEmptyTables s ≠ 0 := by
    rw [hlk]
    by_cases h : countEmptyTables s = 0 <;> simp [h]
  rw [h1]
  unfold countEmptyTables
  rw [scanCount_ne_zero_iff _ _ rfl]
  constructor
  · rintro ⟨pre, suf, he, hf⟩
    rcases (pipeAt_ne_none_iff suf).mp hf with ⟨w1, w2, rest, hsuf, hw1, hw2⟩
    exact ⟨pre, w1, w2, rest, by rw [he, hsuf], hw1, hw2⟩
  · rintro ⟨pre, w1, w2, rest, he, hw1, hw2⟩
    exact ⟨pre, _, he, (pipeAt_ne_none_iff _).mpr ⟨w1, w2, rest, rfl, hw1, hw2⟩⟩

/-- C5 witness: the amended characterisation applied to a document with
three whitespace-separated pipes. -/
theorem c5_empty_tables_amended_witness :
    (check_quality "| | |").lookup "empty_tables" ≠ none :=
  (c5_empty_tables_amended "| | |").mpr
    ⟨[], [' '], [' '], [], by decide, by decide, by decide⟩

/-- C6: code_block_count is the number of fence delimiters found divided by
two rounding down; a document with four delimiters yields two blocks and a
malformed document with three delimiters yields one, with no error. -/
theorem c6_code_block_count :
    (∀ s : String, check_code_blocks s = countFences s / 2)
    ∧ countFences "```json\nab\n```\n```py\ncd\n```\n" = 4
    ∧ check_code_blocks "```json\nab\n```\n```py\ncd\n```\n" = 2
    ∧ countFences "```json\nab\n```\n```" = 3
    ∧ check_code_blocks "```json\nab\n```\n```" = 1 :=
  ⟨fun _ => rfl, by decide, by decide, by decide, by decide⟩

/-- C7: the quality scan has an entry for a category iff its pattern has at
least one match, the value is the exact occurrence count, and three
instances of the word maybe report count 3 for vague_language. -/
theorem c7_quality_scan_contract :
    (∀ content : String,
      ((check_quality content).lookup "unresolved_placeholders" =
        if countPlaceholders content = 0 then none else some (countPlaceholders content))
      ∧ ((check_quality content).lookup "empty_tables" =
        if countEmptyTables content = 0 then none else some (countEmptyTables content))
      ∧ ((check_quality content).lookup "missing_acceptance_criteria" =
        if countMissingCriteria content = 0 then none else some (countMissingCriteria content))
      ∧ ((check_quality content).lookup "vague_language" =
        if countVague content = 0 then none else some (countVague content)))
    ∧ (check_quality "It maybe works, maybe not, maybe later").lookup "vague_language"
        = some 3 :=
  ⟨check_quality_lookup, by decide⟩

/-- C8: the found and missing lists are the order-preserving partition of
the required names by presence, and the full-mode document missing exactly
Security and Performance yields that missing list in that order. -/
theorem c8_found_missing_partition :
    (∀ (content : String) (required : List String),
      (validate_sections content required).1
          = required.filter (fun sec => sectionPresent content sec)
      ∧ (validate_sections content required).2
          = required.filter (fun sec => !sectionPresent content sec))
    ∧ validate_sections docNoSecPerf FULL_SPEC_SECTIONS
        = (["Overview", "User Stories", "Technical", "UI/UX", "Edge Cases", "Implementation"],
           ["Security", "Performance"]) := by
  refine ⟨fun content required => ?_, by decide⟩
  rw [validate_sections_eq]
  exact ⟨rfl, rfl⟩

/-- C9: line_count is one more than the number of newline characters, hence
the number of newline-delimited segments counting a trailing empty one; the
empty document has line_count 1. -/
theorem c9_line_count_newlines :
    (∀ s : String, line_count s = s.data.count '\n' + 1)
    ∧ line_count "" = 1 ∧ line_count "ab" = 1 ∧ line_count "ab\n" = 2 := by
  refine ⟨fun s => ?_, by decide, by decide, by decide⟩
  unfold line_count
  exact splitNl_length s.data

/-- C10: a heading whose name or numeric label follows the hash marker with
no whitespace is not counted; any successful section match contains two
hashes followed by a whitespace character, and a three-hash heading with a
space still matches. -/
theorem c10_marker_whitespace :
    sectionPresent "##Overview" "Overview" = false
    ∧ sectionPresent "##1. Overview" "Overview" = false
    ∧ sectionPresent "### Overview" "Overview" = true
    ∧ (∀ content sec : String, sectionPresent content sec = true →
        ∃ pre c suf, content.data = pre ++ ('#' :: '#' :: c :: suf)
          ∧ pyIsSpace c = true) := by
  refine ⟨by decide, by decide, by decide, ?_⟩
  intro content sec h
  unfold sectionPresent at h
  rcases (searchAny_eq_true_iff _ _).mp h with ⟨pre, suf, he, hf⟩
  rcases matchSecAt_inv hf with ⟨c, rest, hsuf, hc⟩
  exact ⟨pre, c, rest, by rw [he, hsuf], hc⟩

/-- C10 witness: the structural consequence applied to a concrete matching
document. -/
theorem c10_marker_whitespace_witness :
    ∃ pre c suf, ("### Overview").data = pre ++ ('#' :: '#' :: c :: suf)
      ∧ pyIsSpace c = true :=
  c10_marker_whitespace.2.2.2 "### Overview" "Overview" (by decide)

/-- C2: a single-file validation returns false iff a required section is
missing or the placeholder pattern has at least one match; otherwise it
returns true, with verdict PASSED WITH WARNINGS when some quality category
matched and PASSED when none did. -/
theorem c2_verdict_policy (content : String) (quick : Bool) :
    (validate_spec_content content quick = false ↔
      ((validate_sections content
          (if quick then QUICK_SPEC_SECTIONS else FULL_SPEC_SECTIONS)).2 ≠ []
        ∨ 1 ≤ countPlaceholders content))
    ∧ ((validate_sections content
          (if quick then QUICK_SPEC_SECTIONS else FULL_SPEC_SECTIONS)).2 = [] →
        countPlaceholders content = 0 → check_quality content ≠ [] →
        validate_spec_content content quick = true
          ∧ verdictOf content quick = Verdict.passedWithWarnings)
    ∧ ((validate_sections content
          (if quick then QUICK_SPEC_SECTIONS else FULL_SPEC_SECTIONS)).2 = [] →
        check_quality content = [] →
        validate_spec_content content quick = true
          ∧ verdictOf content quick = Verdict.passed) := by
  have hlk := (check_quality_lookup content).1
  have hzero : check_quality content = [] → countPlaceholders content = 0 := by
    intro hq
    have hlk2 := hlk
    rw [hq] at hlk2
    by_cases hp : countPlaceholders content = 0
    · exact hp
    · simp [List.lookup, hp] at hlk2
  refine ⟨?_, ?_, ?_⟩
  · unfold validate_spec_content has_critical_issues
    rw [hlk]
    by_cases hm : (validate_sections content
        (if quick then QUICK_SPEC_SECTIONS else FULL_SPEC_SECTIONS)).2 = [] <;>
      by_cases hp : countPlaceholders content = 0 <;>
        simp [hm, hp, List.isEmpty_iff, Nat.one_le_iff_ne_zero]
  · intro hm hp hq
    unfold validate_spec_content verdictOf has_critical_issues
    rw [hlk]
    simp [hm, hp, hq, List.isEmpty_iff]
  · intro hm hq
    have hp := hzero hq
    unfold validate_spec_content verdictOf has_critical_issues
    rw [hlk]
    simp [hm, hp, hq, List.isEmpty_iff]

/-- C2 witness: a full-mode document with every required section and one
vague word passes with warnings. -/
theorem c2_verdict_policy_witness :
    validate_spec_content warnDoc false = true
      ∧ verdictOf warnDoc false = Verdict.passedWithWarnings :=
  (c2_verdict_policy warnDoc false).2.1 (by decide) (by decide) (by decide)

/-- C3: with at least one supplied path, the exit status is 0 iff every
supplied file validates, a path whose file does not exist validates to
false, and the exit status is always 0 or 1. -/
theorem c3_driver_exit_status (fs : String → Option String) (files : List String)
    (quick : Bool) (hne : files ≠ []) :
    (run_main fs files quick = 0 ↔ ∀ f ∈ files, validate_file fs quick f = true)
    ∧ (∀ f, fs f = none → validate_file fs quick f = false)
    ∧ (run_main fs files quick = 0 ∨ run_main fs files quick = 1) := by
  have hni : files.isEmpty = false := by
    cases files with
    | nil => exact absurd rfl hne
    | cons a t => rfl
  refine ⟨?_, ?_, ?_⟩
  · simp only [run_main, hni, Bool.false_eq_true, if_false,
      foldl_and_eq, Bool.true_and]
    by_cases hall : files.all (validate_file fs quick) = true
    · rw [if_pos hall]
      simp only [eq_self_iff_true, true_iff]
      exact List.all_eq_true.mp hall
    · rw [if_neg hall]
      constructor
      · intro h
        exact absurd h one_ne_zero
      · intro h
        exact absurd (List.all_eq_true.mpr h) hall
  · intro f hf
    simp [validate_file, hf]
  · simp only [run_main, hni, Bool.false_eq_true, if_false]
    by_cases hall : files.foldl (fun acc f => acc && validate_file fs quick f) true = true
    · exact Or.inl (by rw [if_pos hall])
    · exact Or.inr (by rw [if_neg hall])

/-- C3 witness: one existing passing file yields exit status 0. -/
theorem c3_driver_exit_status_witness :
    run_main (fun _ => some passDoc) ["feature-spec.md"] false = 0 :=
  (c3_driver_exit_status (fun _ => some passDoc) ["feature-spec.md"] false
      (by decide)).1.mpr
    (by
      intro f hf
      rw [List.mem_singleton] at hf
      subst hf
      decide)

end SpecValidator
